import Mathlib

/-!
Verification of the Fourier-operator core of hcipy
(`hcipy/fourier/fourier_operations.py` and
`hcipy/propagation/angular_spectrum.py`) against its natural-language
specification.

The shallow embedding represents fields as finitely indexed families of
complex numbers.  The external FFT engine (`numpy.fft.fftn` / `ifftn`,
consumed as a black box by the source) is embedded by its standard
mathematical semantics: the unnormalized discrete Fourier transform with
kernel `exp (-2*pi*I*k*n/N)` and its normalized inverse.  Grids are
represented by their per-axis sample counts, spacings and offsets.
-/

namespace HcipyFourier

open Finset

/-- The forward DFT kernel base `exp (-2*pi*I/N)` used by `numpy.fft.fftn`. -/
noncomputable def omegaF (N : ℕ) : ℂ :=
  Complex.exp (-(2 * Real.pi * Complex.I) / N)

/-- The inverse DFT kernel base `exp (2*pi*I/N)` used by `numpy.fft.ifftn`. -/
noncomputable def omegaB (N : ℕ) : ℂ :=
  Complex.exp (2 * Real.pi * Complex.I / N)

/-- Unnormalized forward discrete Fourier transform of a 1-D array,
the semantics of `numpy.fft.fft`. -/
noncomputable def dft {N : ℕ} (x : Fin N → ℂ) : Fin N → ℂ :=
  fun k => ∑ n : Fin N, omegaF N ^ (k.val * n.val) * x n

/-- Normalized inverse discrete Fourier transform of a 1-D array,
the semantics of `numpy.fft.ifft`. -/
noncomputable def idft {N : ℕ} (x : Fin N → ℂ) : Fin N → ℂ :=
  fun n => (N : ℂ)⁻¹ * ∑ k : Fin N, omegaB N ^ (n.val * k.val) * x k

lemma omegaB_eq_conj (N : ℕ) : omegaB N = (starRingEnd ℂ) (omegaF N) := by
  unfold omegaF omegaB
  rw [← Complex.exp_conj]
  congr 1
  simp [map_div₀, Complex.conj_I, map_ofNat]

lemma omegaF_eq_conj (N : ℕ) : omegaF N = (starRingEnd ℂ) (omegaB N) := by
  rw [omegaB_eq_conj, Complex.conj_conj]

lemma omegaF_mul_omegaB (N : ℕ) : omegaF N * omegaB N = 1 := by
  unfold omegaF omegaB
  rw [← Complex.exp_add, neg_div, neg_add_cancel, Complex.exp_zero]

lemma conj_omegaF_pow (N j : ℕ) :
    (starRingEnd ℂ) (omegaF N ^ j) = omegaB N ^ j := by
  rw [map_pow, ← omegaB_eq_conj]

lemma conj_omegaB_pow (N j : ℕ) :
    (starRingEnd ℂ) (omegaB N ^ j) = omegaF N ^ j := by
  rw [map_pow, ← omegaF_eq_conj]

/-- Standard complex inner product of two 1-D arrays, conjugate-linear in
the first argument. -/
noncomputable def inner1 {N : ℕ} (x y : Fin N → ℂ) : ℂ :=
  ∑ n : Fin N, (starRingEnd ℂ) (x n) * y n

/-- Pairing a forward DFT on the left against the inverse DFT on the right:
the unnormalized transform is `N` times the adjoint of the normalized
inverse. -/
lemma inner1_dft_left {N : ℕ} (x y : Fin N → ℂ) :
    inner1 (dft x) y = (N : ℂ) * inner1 x (idft y) := by
  rcases Nat.eq_zero_or_pos N with h0 | hpos
  · subst h0; simp [inner1]
  have hN : (N : ℂ) ≠ 0 := Nat.cast_ne_zero.mpr hpos.ne'
  unfold inner1 dft idft
  rw [Finset.mul_sum]
  have step1 : ∀ k : Fin N,
      (starRingEnd ℂ) (∑ n : Fin N, omegaF N ^ (k.val * n.val) * x n) * y k
        = ∑ n : Fin N, omegaB N ^ (k.val * n.val) * (starRingEnd ℂ) (x n) * y k := by
    intro k
    rw [map_sum, Finset.sum_mul]
    refine Finset.sum_congr rfl fun n _ => ?_
    rw [map_mul, conj_omegaF_pow]
  rw [Finset.sum_congr rfl fun k _ => step1 k, Finset.sum_comm]
  refine Finset.sum_congr rfl fun n _ => ?_
  have hcancel : (N : ℂ) * ((starRingEnd ℂ) (x n) *
      ((N : ℂ)⁻¹ * ∑ k : Fin N, omegaB N ^ (n.val * k.val) * y k))
        = (starRingEnd ℂ) (x n) * ∑ k : Fin N, omegaB N ^ (n.val * k.val) * y k := by
    field_simp
  rw [hcancel, Finset.mul_sum]
  refine Finset.sum_congr rfl fun k _ => ?_
  rw [Nat.mul_comm k.val n.val]
  ring

lemma inner1_idft_left {N : ℕ} (x y : Fin N → ℂ) :
    inner1 (idft x) y = (N : ℂ)⁻¹ * inner1 x (dft y) := by
  unfold inner1 dft idft
  rw [Finset.mul_sum]
  have step1 : ∀ n : Fin N,
      (starRingEnd ℂ) ((N : ℂ)⁻¹ * ∑ k : Fin N, omegaB N ^ (n.val * k.val) * x k) * y n
        = (N : ℂ)⁻¹ * ∑ k : Fin N, omegaF N ^ (n.val * k.val) * (starRingEnd ℂ) (x k) * y n := by
    intro n
    rw [map_mul, map_inv₀, map_natCast, map_sum, mul_assoc, Finset.sum_mul]
    congr 1
    refine Finset.sum_congr rfl fun k _ => ?_
    rw [map_mul, conj_omegaB_pow]
  rw [Finset.sum_congr rfl fun n _ => step1 n]
  simp_rw [← Finset.mul_sum]
  congr 1
  rw [Finset.sum_comm]
  refine Finset.sum_congr rfl fun k _ => ?_
  rw [Finset.mul_sum]
  refine Finset.sum_congr rfl fun n _ => ?_
  rw [Nat.mul_comm n.val k.val]
  ring

/-- Moving an elementwise multiplier across the inner product conjugates it. -/
lemma inner1_mul_filter {N : ℕ} (t x y : Fin N → ℂ) :
    inner1 (fun k => t k * x k) y = inner1 x (fun k => (starRingEnd ℂ) (t k) * y k) := by
  unfold inner1
  refine Finset.sum_congr rfl fun k _ => ?_
  rw [map_mul]
  ring

lemma omegaB_isPrimitiveRoot {N : ℕ} (hN : N ≠ 0) : IsPrimitiveRoot (omegaB N) N :=
  Complex.isPrimitiveRoot_exp N hN

lemma omegaF_eq_inv (N : ℕ) : omegaF N = (omegaB N)⁻¹ := by
  have h := omegaF_mul_omegaB N
  rw [mul_comm] at h
  exact eq_inv_of_mul_eq_one_right h

/-- Orthogonality of DFT characters: the geometric sum of the mixed kernel
ratio vanishes off the diagonal and is `N` on it. -/
lemma sum_kernel_ratio {N : ℕ} (n m : Fin N) :
    ∑ k : Fin N, (omegaB N ^ n.val * omegaF N ^ m.val) ^ k.val
      = if n = m then (N : ℂ) else 0 := by
  have hN : N ≠ 0 := Fin.pos_iff_nonempty.mpr ⟨n⟩ |>.ne'
  have hprim := omegaB_isPrimitiveRoot hN
  by_cases h : n = m
  · subst h
    have hone : omegaB N ^ n.val * omegaF N ^ n.val = 1 := by
      rw [← mul_pow, mul_comm, omegaF_mul_omegaB, one_pow]
    simp [hone]
  · set r : ℂ := omegaB N ^ n.val * omegaF N ^ m.val with hr
    have hrN : r ^ N = 1 := by
      rw [hr, mul_pow, ← pow_mul, ← pow_mul, Nat.mul_comm n.val N, Nat.mul_comm m.val N,
        pow_mul, pow_mul, hprim.pow_eq_one, one_pow, one_mul]
      have : omegaF N ^ N = 1 := by
        have hmul : (omegaF N * omegaB N) ^ N = 1 := by rw [omegaF_mul_omegaB, one_pow]
        rw [mul_pow, hprim.pow_eq_one, mul_one] at hmul
        exact hmul
      rw [this, one_pow]
    have hr1 : r ≠ 1 := by
      intro habs
      rw [hr, omegaF_eq_inv, inv_pow, ← div_eq_mul_inv] at habs
      have hnz : omegaB N ^ m.val ≠ 0 := pow_ne_zero _ (Complex.exp_ne_zero _)
      have heq : omegaB N ^ n.val = omegaB N ^ m.val := by
        field_simp at habs
        exact habs
      exact h (Fin.ext (hprim.pow_inj n.isLt m.isLt heq))
    rw [if_neg h]
    have := geom_sum_eq hr1 N
    rw [Fin.sum_univ_eq_sum_range (fun k => r ^ k), this, hrN, sub_self, zero_div]

/-- Fourier inversion: `ifft (fft x) = x`, the round-trip contract of the
external FFT engine. -/
lemma idft_dft {N : ℕ} (x : Fin N → ℂ) : idft (dft x) = x := by
  funext n
  unfold idft dft
  have expand : ∀ k : Fin N,
      omegaB N ^ (n.val * k.val) * ∑ m : Fin N, omegaF N ^ (k.val * m.val) * x m
        = ∑ m : Fin N, (omegaB N ^ n.val * omegaF N ^ m.val) ^ k.val * x m := by
    intro k
    rw [Finset.mul_sum]
    refine Finset.sum_congr rfl fun m _ => ?_
    rw [mul_pow, ← pow_mul, ← pow_mul, Nat.mul_comm k.val m.val, mul_assoc]
  rw [Finset.sum_congr rfl fun k _ => expand k, Finset.sum_comm]
  have collapse : ∀ m : Fin N,
      ∑ k : Fin N, (omegaB N ^ n.val * omegaF N ^ m.val) ^ k.val * x m
        = (if n = m then (N : ℂ) else 0) * x m := by
    intro m
    rw [← Finset.sum_mul, sum_kernel_ratio]
  rw [Finset.sum_congr rfl fun m _ => collapse m]
  have hN : (N : ℂ) ≠ 0 := Nat.cast_ne_zero.mpr (Fin.pos_iff_nonempty.mpr ⟨n⟩).ne'
  simp only [ite_mul, zero_mul]
  rw [Finset.sum_ite_eq, if_pos (Finset.mem_univ n)]
  field_simp

/-- Fourier inversion in the other composition order: `fft (ifft x) = x`. -/
lemma dft_idft {N : ℕ} (x : Fin N → ℂ) : dft (idft x) = x := by
  funext k
  unfold idft dft
  have expand : ∀ n : Fin N,
      omegaF N ^ (k.val * n.val) * ((N : ℂ)⁻¹ * ∑ m : Fin N, omegaB N ^ (n.val * m.val) * x m)
        = (N : ℂ)⁻¹ * ∑ m : Fin N, (omegaB N ^ m.val * omegaF N ^ k.val) ^ n.val * x m := by
    intro n
    simp_rw [Finset.mul_sum]
    refine Finset.sum_congr rfl fun m _ => ?_
    rw [mul_pow, ← pow_mul, ← pow_mul, Nat.mul_comm m.val n.val, Nat.mul_comm k.val n.val]
    ring
  rw [Finset.sum_congr rfl fun n _ => expand n, ← Finset.mul_sum, Finset.sum_comm]
  have collapse : ∀ m : Fin N,
      ∑ n : Fin N, (omegaB N ^ m.val * omegaF N ^ k.val) ^ n.val * x m
        = (if m = k then (N : ℂ) else 0) * x m := by
    intro m
    rw [← Finset.sum_mul, sum_kernel_ratio]
  rw [Finset.sum_congr rfl fun m _ => collapse m]
  have hN : (N : ℂ) ≠ 0 := Nat.cast_ne_zero.mpr (Fin.pos_iff_nonempty.mpr ⟨k⟩).ne'
  simp only [ite_mul, zero_mul]
  rw [Finset.sum_ite_eq', if_pos (Finset.mem_univ k)]
  field_simp

/-- Zero-padded copy of a field into the larger internal buffer: the source
lines `f[:] = 0; f[c] = field.shaped` of `FourierFilter._operation`, with the
cutout starting at offset `off`.  Indices outside the cutout hold zero. -/
def pad1 {N : ℕ} (M off : ℕ) (x : Fin N → ℂ) : Fin M → ℂ :=
  fun m => if h : off ≤ m.val ∧ m.val < off + N then x ⟨m.val - off, by omega⟩ else 0

/-- Crop of the internal buffer back to the cutout region: the source line
`res = f[c]` of `FourierFilter._operation`. -/
def crop1 {M : ℕ} (N off : ℕ) (x : Fin M → ℂ) : Fin N → ℂ :=
  fun n => if h : off + n.val < M then x ⟨off + n.val, h⟩ else 0

/-- Extension of a finite array by zeros to all of the naturals, used to
reason about the cutout placement without dependent index juggling. -/
def extendZ {N : ℕ} (x : Fin N → ℂ) : ℕ → ℂ :=
  fun i => if h : i < N then x ⟨i, h⟩ else 0

lemma extendZ_fin {N : ℕ} (x : Fin N → ℂ) (n : Fin N) : extendZ x n.val = x n := by
  unfold extendZ
  rw [dif_pos n.isLt]

lemma crop1_extend {N M off : ℕ} (x : Fin M → ℂ) (n : Fin N) :
    crop1 N off x n = extendZ x (off + n.val) := rfl

lemma pad1_extend {N M off : ℕ} (y : Fin N → ℂ) (m : Fin M) :
    pad1 M off y m
      = if off ≤ m.val ∧ m.val < off + N then extendZ y (m.val - off) else 0 := by
  unfold pad1 extendZ
  by_cases h : off ≤ m.val ∧ m.val < off + N
  · rw [dif_pos h, if_pos h, dif_pos (by omega)]
  · rw [dif_neg h, if_neg h]

lemma inner1_conj_swap {N : ℕ} (x y : Fin N → ℂ) :
    inner1 x y = (starRingEnd ℂ) (inner1 y x) := by
  unfold inner1
  rw [map_sum]
  refine Finset.sum_congr rfl fun n _ => ?_
  rw [map_mul, Complex.conj_conj]
  ring

lemma inner1_crop_left {N M off : ℕ} (x : Fin M → ℂ) (y : Fin N → ℂ) :
    inner1 (crop1 N off x) y = inner1 x (pad1 M off y) := by
  unfold inner1
  set g : ℕ → ℂ := fun m => (starRingEnd ℂ) (extendZ x m) *
    (if off ≤ m ∧ m < off + N then extendZ y (m - off) else 0) with hg
  have lhs_eq : ∀ n : Fin N, (starRingEnd ℂ) (crop1 N off x n) * y n
      = (starRingEnd ℂ) (extendZ x (off + n.val)) * extendZ y n.val := by
    intro n
    rw [crop1_extend, extendZ_fin]
  have rhs_eq : ∀ m : Fin M, (starRingEnd ℂ) (x m) * pad1 M off y m = g m := by
    intro m
    rw [pad1_extend, ← extendZ_fin x m]
  rw [Finset.sum_congr rfl fun n _ => lhs_eq n,
    Finset.sum_congr rfl fun m _ => rhs_eq m,
    Fin.sum_univ_eq_sum_range
      (fun j => (starRingEnd ℂ) (extendZ x (off + j)) * extendZ y j) N,
    Fin.sum_univ_eq_sum_range g M]
  have hg_past : ∀ m : ℕ, M ≤ m → g m = 0 := by
    intro m hm
    have hx : extendZ x m = 0 := by
      unfold extendZ
      rw [dif_neg (by omega)]
    rw [hg]
    simp [hx]
  have step_up : ∑ m ∈ Finset.range M, g m = ∑ m ∈ Finset.range (M + (off + N)), g m := by
    apply Finset.sum_subset (Finset.range_subset.mpr (by omega))
    intro m hm hnm
    rw [Finset.mem_range] at hnm
    exact hg_past m (by omega)
  have step_ico : ∑ m ∈ Finset.range (M + (off + N)), g m
      = ∑ m ∈ Finset.Ico off (off + N), g m := by
    symm
    apply Finset.sum_subset
    · intro m hm
      rw [Finset.mem_Ico] at hm
      rw [Finset.mem_range]
      omega
    · intro m _ hnm
      rw [Finset.mem_Ico] at hnm
      rw [hg]
      simp only
      rw [if_neg (by omega), mul_zero]
  have step_reindex : ∑ m ∈ Finset.Ico off (off + N), g m
      = ∑ j ∈ Finset.range N, g (off + j) := by
    rw [Finset.sum_Ico_eq_sum_range]
    simp only [Nat.add_sub_cancel_left]
  rw [step_up, step_ico, step_reindex]
  refine (Finset.sum_congr rfl fun j hj => ?_).symm
  rw [Finset.mem_range] at hj
  rw [hg]
  simp only
  rw [if_pos (by omega), Nat.add_sub_cancel_left]

lemma inner1_pad_left {N M off : ℕ} (u : Fin N → ℂ) (w : Fin M → ℂ) :
    inner1 (pad1 M off u) w = inner1 u (crop1 N off w) := by
  rw [inner1_conj_swap, ← inner1_crop_left, ← inner1_conj_swap]

/-- `FourierFilter._operation` (fourier_operations.py lines 94-159) for a
scalar transfer function, specialized to a one-dimensional input grid of `N`
samples and internal grid of `M` samples with the cutout at offset `off`:
zero-pad into the internal buffer, forward FFT, multiply by the FFT-ordered
transfer function (conjugated on the adjoint path, lines 140-143), inverse
FFT, and crop back to the cutout.  The `cutout is None` case of the source
corresponds to `M = N`, `off = 0`, where padding and cropping are the
identity. -/
noncomputable def fourierFilterOperation {N M : ℕ} (off : ℕ) (tf : Fin M → ℂ)
    (adjoint : Bool) (x : Fin N → ℂ) : Fin N → ℂ :=
  crop1 N off (idft (fun k =>
    (cond adjoint ((starRingEnd ℂ) (tf k)) (tf k)) * dft (pad1 M off x) k))

/-- Modelled from the spec: `field_dot` is defined in `hcipy.field`, outside
src/; per spec section 4.1 step 5 it applies a matrix-valued transfer
function as a per-frequency-sample matrix-vector product. -/
noncomputable def fieldDotMatVec {d M : ℕ} (A : Fin M → Fin d → Fin d → ℂ)
    (f : Fin d → Fin M → ℂ) : Fin d → Fin M → ℂ :=
  fun i k => ∑ l : Fin d, A k i l * f l k

/-- Modelled from the spec: `field_conjugate_transpose` is defined in
`hcipy.field`, outside src/; per spec section 4.1 step 5 the adjoint path
uses the conjugate transpose of the matrix at each frequency sample. -/
noncomputable def fieldConjugateTranspose {d M : ℕ}
    (A : Fin M → Fin d → Fin d → ℂ) : Fin M → Fin d → Fin d → ℂ :=
  fun k i l => (starRingEnd ℂ) (A k l i)

/-- `FourierFilter._operation` (fourier_operations.py lines 94-159) for a
matrix-valued transfer function acting on a vector field of tensor dimension
`d` (lines 126-137): pad and FFT each tensor component, apply the
per-frequency matrix-vector product (conjugate-transposing the matrix on the
adjoint path, lines 134-135), inverse FFT and crop each component. -/
noncomputable def fourierFilterOperationMatrix {d N M : ℕ} (off : ℕ)
    (tf : Fin M → Fin d → Fin d → ℂ) (adjoint : Bool)
    (x : Fin d → Fin N → ℂ) : Fin d → Fin N → ℂ :=
  let fp : Fin d → Fin M → ℂ := fun i => dft (pad1 M off (x i))
  let g : Fin d → Fin M → ℂ :=
    fieldDotMatVec (cond adjoint (fieldConjugateTranspose tf) tf) fp
  fun i => crop1 N off (idft (g i))

/-- Standard complex inner product of two vector-valued fields. -/
noncomputable def innerVec {d N : ℕ} (u v : Fin d → Fin N → ℂ) : ℂ :=
  ∑ i : Fin d, inner1 (u i) (v i)

lemma fourierFilter_adjoint {N M : ℕ} (off : ℕ) (tf : Fin M → ℂ)
    (u v : Fin N → ℂ) :
    inner1 (fourierFilterOperation off tf false u) v
      = inner1 u (fourierFilterOperation off tf true v) := by
  rcases Nat.eq_zero_or_pos M with h0 | hpos
  · subst h0
    simp [fourierFilterOperation, crop1, inner1]
  have hM : (M : ℂ) ≠ 0 := Nat.cast_ne_zero.mpr hpos.ne'
  unfold fourierFilterOperation
  simp only [cond_false, cond_true]
  rw [inner1_crop_left, inner1_idft_left,
    inner1_mul_filter tf (dft (pad1 M off u)), inner1_dft_left, inner1_pad_left]
  rw [← mul_assoc, inv_mul_cancel₀ hM, one_mul]

lemma innerVec_fieldDot {d M : ℕ} (A : Fin M → Fin d → Fin d → ℂ)
    (f g : Fin d → Fin M → ℂ) :
    innerVec (fieldDotMatVec A f) g
      = innerVec f (fieldDotMatVec (fieldConjugateTranspose A) g) := by
  unfold innerVec inner1 fieldDotMatVec fieldConjugateTranspose
  have lhs_eq : ∀ (i : Fin d) (k : Fin M),
      (starRingEnd ℂ) (∑ l : Fin d, A k i l * f l k) * g i k
        = ∑ l : Fin d, (starRingEnd ℂ) (A k i l) * (starRingEnd ℂ) (f l k) * g i k := by
    intro i k
    rw [map_sum, Finset.sum_mul]
    refine Finset.sum_congr rfl fun l _ => ?_
    rw [map_mul]
  have rhs_eq : ∀ (l : Fin d) (k : Fin M),
      (starRingEnd ℂ) (f l k) * ∑ i : Fin d, (starRingEnd ℂ) (A k i l) * g i k
        = ∑ i : Fin d, (starRingEnd ℂ) (A k i l) * (starRingEnd ℂ) (f l k) * g i k := by
    intro l k
    rw [Finset.mul_sum]
    refine Finset.sum_congr rfl fun i _ => ?_
    ring
  calc ∑ i : Fin d, ∑ k : Fin M, (starRingEnd ℂ) (∑ l : Fin d, A k i l * f l k) * g i k
      = ∑ i : Fin d, ∑ k : Fin M, ∑ l : Fin d,
          (starRingEnd ℂ) (A k i l) * (starRingEnd ℂ) (f l k) * g i k := by
        exact Finset.sum_congr rfl fun i _ => Finset.sum_congr rfl fun k _ => lhs_eq i k
    _ = ∑ i : Fin d, ∑ l : Fin d, ∑ k : Fin M,
          (starRingEnd ℂ) (A k i l) * (starRingEnd ℂ) (f l k) * g i k := by
        exact Finset.sum_congr rfl fun i _ => Finset.sum_comm
    _ = ∑ l : Fin d, ∑ i : Fin d, ∑ k : Fin M,
          (starRingEnd ℂ) (A k i l) * (starRingEnd ℂ) (f l k) * g i k := Finset.sum_comm
    _ = ∑ l : Fin d, ∑ k : Fin M, ∑ i : Fin d,
          (starRingEnd ℂ) (A k i l) * (starRingEnd ℂ) (f l k) * g i k := by
        exact Finset.sum_congr rfl fun l _ => Finset.sum_comm
    _ = ∑ l : Fin d, ∑ k : Fin M,
          (starRingEnd ℂ) (f l k) * ∑ i : Fin d, (starRingEnd ℂ) (A k i l) * g i k := by
        exact Finset.sum_congr rfl fun l _ => Finset.sum_congr rfl fun k _ => (rhs_eq l k).symm

lemma fourierFilterMatrix_adjoint {d N M : ℕ} (off : ℕ)
    (tf : Fin M → Fin d → Fin d → ℂ) (u v : Fin d → Fin N → ℂ) :
    innerVec (fourierFilterOperationMatrix off tf false u) v
      = innerVec u (fourierFilterOperationMatrix off tf true v) := by
  rcases Nat.eq_zero_or_pos M with h0 | hpos
  · subst h0
    simp [fourierFilterOperationMatrix, crop1, inner1, innerVec]
  have hM : (M : ℂ) ≠ 0 := Nat.cast_ne_zero.mpr hpos.ne'
  unfold fourierFilterOperationMatrix
  simp only [cond_false, cond_true]
  unfold innerVec
  calc ∑ i : Fin d,
        inner1 (crop1 N off (idft (fieldDotMatVec tf
          (fun j => dft (pad1 M off (u j))) i))) (v i)
      = ∑ i : Fin d, (M : ℂ)⁻¹ *
          inner1 (fieldDotMatVec tf (fun j => dft (pad1 M off (u j))) i)
            (dft (pad1 M off (v i))) := by
        refine Finset.sum_congr rfl fun i _ => ?_
        rw [inner1_crop_left, inner1_idft_left]
    _ = (M : ℂ)⁻¹ * innerVec (fieldDotMatVec tf (fun j => dft (pad1 M off (u j))))
          (fun i => dft (pad1 M off (v i))) := by
        rw [innerVec, Finset.mul_sum]
    _ = (M : ℂ)⁻¹ * innerVec (fun j => dft (pad1 M off (u j)))
          (fieldDotMatVec (fieldConjugateTranspose tf)
            (fun i => dft (pad1 M off (v i)))) := by
        rw [innerVec_fieldDot]
    _ = (M : ℂ)⁻¹ * ∑ l : Fin d, (M : ℂ) * inner1 (pad1 M off (u l))
          (idft (fieldDotMatVec (fieldConjugateTranspose tf)
            (fun i => dft (pad1 M off (v i))) l)) := by
        rw [innerVec]
        congr 1
        refine Finset.sum_congr rfl fun l _ => ?_
        rw [inner1_dft_left]
    _ = ∑ l : Fin d, inner1 (u l)
          (crop1 N off (idft (fieldDotMatVec (fieldConjugateTranspose tf)
            (fun i => dft (pad1 M off (v i))) l))) := by
        rw [Finset.mul_sum]
        refine Finset.sum_congr rfl fun l _ => ?_
        rw [← mul_assoc, inv_mul_cancel₀ hM, one_mul, inner1_pad_left]

/-- Shaped 2-D fields are indexed `[y, x]` (numpy layout, grid axes
reversed): the row index ranges over the `N1` samples of grid axis 1 and the
column index over the `N0` samples of grid axis 0.  `dftAxis1` is
`numpy.fft.fft(..., axis=-1)`. -/
noncomputable def dftAxis1 {N1 N0 : ℕ} (u : Fin N1 → Fin N0 → ℂ) :
    Fin N1 → Fin N0 → ℂ :=
  fun r => dft (u r)

/-- `numpy.fft.ifft(..., axis=-1)` on a shaped 2-D array. -/
noncomputable def idftAxis1 {N1 N0 : ℕ} (u : Fin N1 → Fin N0 → ℂ) :
    Fin N1 → Fin N0 → ℂ :=
  fun r => idft (u r)

/-- `numpy.fft.fft(..., axis=-2)` (equivalently axis 0 of a scalar shaped
2-D array). -/
noncomputable def dftAxis0 {N1 N0 : ℕ} (u : Fin N1 → Fin N0 → ℂ) :
    Fin N1 → Fin N0 → ℂ :=
  fun r c => dft (fun s => u s c) r

/-- `numpy.fft.ifft(..., axis=-2)` on a shaped 2-D array. -/
noncomputable def idftAxis0 {N1 N0 : ℕ} (u : Fin N1 → Fin N0 → ℂ) :
    Fin N1 → Fin N0 → ℂ :=
  fun r c => idft (fun s => u s c) r

/-- Standard complex inner product of two shaped 2-D fields. -/
noncomputable def inner2 {N1 N0 : ℕ} (u v : Fin N1 → Fin N0 → ℂ) : ℂ :=
  ∑ r : Fin N1, inner1 (u r) (v r)

/-- Transpose of a shaped 2-D array. -/
def transp {N1 N0 : ℕ} (u : Fin N1 → Fin N0 → ℂ) : Fin N0 → Fin N1 → ℂ :=
  fun c r => u r c

lemma inner2_transp {N1 N0 : ℕ} (u v : Fin N1 → Fin N0 → ℂ) :
    inner2 (transp u) (transp v) = inner2 u v := by
  unfold inner2 inner1 transp
  exact Finset.sum_comm

lemma transp_dftAxis0 {N1 N0 : ℕ} (u : Fin N1 → Fin N0 → ℂ) :
    transp (dftAxis0 u) = dftAxis1 (transp u) := rfl

lemma transp_idftAxis0 {N1 N0 : ℕ} (u : Fin N1 → Fin N0 → ℂ) :
    transp (idftAxis0 u) = idftAxis1 (transp u) := rfl

lemma inner2_dftAxis1_left {N1 N0 : ℕ} (u v : Fin N1 → Fin N0 → ℂ) :
    inner2 (dftAxis1 u) v = (N0 : ℂ) * inner2 u (idftAxis1 v) := by
  unfold inner2 dftAxis1 idftAxis1
  rw [Finset.mul_sum]
  exact Finset.sum_congr rfl fun r _ => inner1_dft_left (u r) (v r)

lemma inner2_idftAxis1_left {N1 N0 : ℕ} (u v : Fin N1 → Fin N0 → ℂ) :
    inner2 (idftAxis1 u) v = (N0 : ℂ)⁻¹ * inner2 u (dftAxis1 v) := by
  unfold inner2 idftAxis1 dftAxis1
  rw [Finset.mul_sum]
  exact Finset.sum_congr rfl fun r _ => inner1_idft_left (u r) (v r)

lemma inner2_dftAxis0_left {N1 N0 : ℕ} (u v : Fin N1 → Fin N0 → ℂ) :
    inner2 (dftAxis0 u) v = (N1 : ℂ) * inner2 u (idftAxis0 v) := by
  rw [← inner2_transp (dftAxis0 u) v, transp_dftAxis0, inner2_dftAxis1_left,
    ← transp_idftAxis0, inner2_transp]

lemma inner2_idftAxis0_left {N1 N0 : ℕ} (u v : Fin N1 → Fin N0 → ℂ) :
    inner2 (idftAxis0 u) v = (N1 : ℂ)⁻¹ * inner2 u (dftAxis0 v) := by
  rw [← inner2_transp (idftAxis0 u) v, transp_idftAxis0, inner2_idftAxis1_left,
    ← transp_dftAxis0, inner2_transp]

lemma inner2_mul_filter {N1 N0 : ℕ} (t x y : Fin N1 → Fin N0 → ℂ) :
    inner2 (fun r c => t r c * x r c) y
      = inner2 x (fun r c => (starRingEnd ℂ) (t r c) * y r c) := by
  unfold inner2
  exact Finset.sum_congr rfl fun r _ => inner1_mul_filter (t r) (x r) (y r)

lemma inner2_zero_cols {N1 N0 : ℕ} (u v : Fin N1 → Fin N0 → ℂ) (h : N0 = 0) :
    inner2 u v = 0 := by
  subst h
  simp [inner2, inner1]

lemma inner2_zero_rows {N1 N0 : ℕ} (u v : Fin N1 → Fin N0 → ℂ) (h : N1 = 0) :
    inner2 u v = 0 := by
  subst h
  simp [inner2]

/-- Adjoint of a one-axis FFT sandwich along the last axis. -/
lemma sandwichAxis1 {N1 N0 : ℕ} (t : Fin N1 → Fin N0 → ℂ)
    (u v : Fin N1 → Fin N0 → ℂ) :
    inner2 (idftAxis1 (fun r c => t r c * dftAxis1 u r c)) v
      = inner2 u (idftAxis1 (fun r c => (starRingEnd ℂ) (t r c) * dftAxis1 v r c)) := by
  rcases Nat.eq_zero_or_pos N0 with h0 | hpos
  · rw [inner2_zero_cols _ _ h0, inner2_zero_cols _ _ h0]
  have hN : (N0 : ℂ) ≠ 0 := Nat.cast_ne_zero.mpr hpos.ne'
  rw [inner2_idftAxis1_left, inner2_mul_filter, inner2_dftAxis1_left, ← mul_assoc,
    inv_mul_cancel₀ hN, one_mul]

/-- Adjoint of a one-axis FFT sandwich along the first axis. -/
lemma sandwichAxis0 {N1 N0 : ℕ} (t : Fin N1 → Fin N0 → ℂ)
    (u v : Fin N1 → Fin N0 → ℂ) :
    inner2 (idftAxis0 (fun r c => t r c * dftAxis0 u r c)) v
      = inner2 u (idftAxis0 (fun r c => (starRingEnd ℂ) (t r c) * dftAxis0 v r c)) := by
  rcases Nat.eq_zero_or_pos N1 with h0 | hpos
  · rw [inner2_zero_rows _ _ h0, inner2_zero_rows _ _ h0]
  have hN : (N1 : ℂ) ≠ 0 := Nat.cast_ne_zero.mpr hpos.ne'
  rw [inner2_idftAxis0_left, inner2_mul_filter, inner2_dftAxis0_left, ← mul_assoc,
    inv_mul_cancel₀ hN, one_mul]

/-- Adjoint of the two-axis FFT sandwich. -/
lemma sandwichBoth {N1 N0 : ℕ} (t : Fin N1 → Fin N0 → ℂ)
    (u v : Fin N1 → Fin N0 → ℂ) :
    inner2 (idftAxis1 (idftAxis0 (fun r c => t r c * dftAxis0 (dftAxis1 u) r c))) v
      = inner2 u (idftAxis1 (idftAxis0
          (fun r c => (starRingEnd ℂ) (t r c) * dftAxis0 (dftAxis1 v) r c))) := by
  rcases Nat.eq_zero_or_pos N0 with h0 | hpos0
  · rw [inner2_zero_cols _ _ h0, inner2_zero_cols _ _ h0]
  rcases Nat.eq_zero_or_pos N1 with h1 | hpos1
  · rw [inner2_zero_rows _ _ h1, inner2_zero_rows _ _ h1]
  have hN0 : (N0 : ℂ) ≠ 0 := Nat.cast_ne_zero.mpr hpos0.ne'
  have hN1 : (N1 : ℂ) ≠ 0 := Nat.cast_ne_zero.mpr hpos1.ne'
  rw [inner2_idftAxis1_left, inner2_idftAxis0_left, inner2_mul_filter,
    inner2_dftAxis0_left, inner2_dftAxis1_left]
  field_simp

lemma dftAxis1_idftAxis1 {N1 N0 : ℕ} (w : Fin N1 → Fin N0 → ℂ) :
    dftAxis1 (idftAxis1 w) = w := by
  funext r
  exact dft_idft (w r)

lemma idftAxis1_dftAxis1 {N1 N0 : ℕ} (w : Fin N1 → Fin N0 → ℂ) :
    idftAxis1 (dftAxis1 w) = w := by
  funext r
  exact idft_dft (w r)

lemma dftAxis0_idftAxis0 {N1 N0 : ℕ} (w : Fin N1 → Fin N0 → ℂ) :
    dftAxis0 (idftAxis0 w) = w := by
  funext r c
  have : (fun s => idftAxis0 w s c) = idft (fun s => w s c) := rfl
  rw [dftAxis0, this, dft_idft]

lemma idftAxis0_dftAxis0 {N1 N0 : ℕ} (w : Fin N1 → Fin N0 → ℂ) :
    idftAxis0 (dftAxis0 w) = w := by
  funext r c
  have : (fun s => dftAxis0 w s c) = dft (fun s => w s c) := rfl
  rw [idftAxis0, this, idft_dft]

/-- Modelled from the spec: `make_fft_grid` lives in `hcipy.fourier`, outside
src/.  FFT-ordered angular frequency of sample `k` on an axis of `n` samples
with spacing `δ`: the native numpy `fftfreq` ordering scaled by `2π/(n·δ)`.
Composing the centered Fourier grid with the `ifftshift` reordering done by
the setters amounts to evaluating the filters at these frequencies. -/
noncomputable def fftFreq (n : ℕ) (δ : ℝ) (k : Fin n) : ℝ :=
  2 * Real.pi * (if 2 * k.val < n then (k.val : ℝ) else (k.val : ℝ) - n) / (n * δ)

/-- Modelled from the spec: the Grid collaborator (spec section 3) exposes
per-axis `delta` and `zero`; on a regular axis sample `j` lies at
`z + δ·j` (`separated_coords`). -/
noncomputable def gridCoord {n : ℕ} (δ z : ℝ) (j : Fin n) : ℝ := z + δ * j.val

/-- Modelled from the spec: `_numexpr_grid_shift` lives in `hcipy.fourier`,
outside src/; per spec section 4.2 the shift setter evaluates the linear
phase ramp `exp(-i k·shift)` over the reduced Fourier grid of the active
axes and broadcasts it over inactive axes (singleton axes, i.e. a unit
factor).  Evaluated here at FFT-ordered frequencies, absorbing the
`ifftshift` of `FourierShift.shift` (fourier_operations.py line 211). -/
noncomputable def fourierShiftFilter (N0 N1 : ℕ) (δ0 δ1 s0 s1 : ℝ) :
    Fin N1 → Fin N0 → ℂ :=
  fun r c =>
    (if s1 = 0 then 1 else Complex.exp (-Complex.I * ((fftFreq N1 δ1 r * s1 : ℝ) : ℂ))) *
    (if s0 = 0 then 1 else Complex.exp (-Complex.I * ((fftFreq N0 δ0 c * s0 : ℝ) : ℂ)))

/-- `FourierShift._operation` (fourier_operations.py lines 246-267) together
with the active-axis bookkeeping of the `shift` setter (lines 189-214),
specialized to a scalar field on a 2-D grid, for which the set of transformed
axes resolves to one of `{}` (early no-op exit returning the input, lines
198-201 and 247-248), `{x}`, `{y}` or `{x, y}`: FFT over exactly the axes
with non-zero shift, multiply by the phase filter (conjugated on the adjoint
path, lines 258-261), inverse FFT over the same axes. -/
noncomputable def fourierShiftOperation {N1 N0 : ℕ} (δ0 δ1 s0 s1 : ℝ)
    (adjoint : Bool) (u : Fin N1 → Fin N0 → ℂ) : Fin N1 → Fin N0 → ℂ :=
  if s0 = 0 ∧ s1 = 0 then u
  else if s1 = 0 then
    idftAxis1 (fun r c =>
      (cond adjoint ((starRingEnd ℂ) (fourierShiftFilter N0 N1 δ0 δ1 s0 s1 r c))
        (fourierShiftFilter N0 N1 δ0 δ1 s0 s1 r c)) * dftAxis1 u r c)
  else if s0 = 0 then
    idftAxis0 (fun r c =>
      (cond adjoint ((starRingEnd ℂ) (fourierShiftFilter N0 N1 δ0 δ1 s0 s1 r c))
        (fourierShiftFilter N0 N1 δ0 δ1 s0 s1 r c)) * dftAxis0 u r c)
  else
    idftAxis1 (idftAxis0 (fun r c =>
      (cond adjoint ((starRingEnd ℂ) (fourierShiftFilter N0 N1 δ0 δ1 s0 s1 r c))
        (fourierShiftFilter N0 N1 δ0 δ1 s0 s1 r c)) * dftAxis0 (dftAxis1 u) r c))

lemma fourierShift_adjoint {N1 N0 : ℕ} (δ0 δ1 s0 s1 : ℝ)
    (u v : Fin N1 → Fin N0 → ℂ) :
    inner2 (fourierShiftOperation δ0 δ1 s0 s1 false u) v
      = inner2 u (fourierShiftOperation δ0 δ1 s0 s1 true v) := by
  unfold fourierShiftOperation
  by_cases hz : s0 = 0 ∧ s1 = 0
  · rw [if_pos hz, if_pos hz]
  rw [if_neg hz, if_neg hz]
  by_cases h1 : s1 = 0
  · rw [if_pos h1, if_pos h1]
    simp only [cond_false, cond_true]
    exact sandwichAxis1 _ u v
  rw [if_neg h1, if_neg h1]
  by_cases h0 : s0 = 0
  · rw [if_pos h0, if_pos h0]
    simp only [cond_false, cond_true]
    exact sandwichAxis0 _ u v
  · rw [if_neg h0, if_neg h0]
    simp only [cond_false, cond_true]
    exact sandwichBoth _ u v

/-- The phase filter of `FourierShear.shear` (fourier_operations.py lines
324-339): `exp(-1j * shear * outer(y, fx))` where `y` ranges over the spatial
coordinates of the non-transformed axis and `fx` over the FFT-ordered
frequencies of the sheared axis, transposed into shaped `[y, x]` layout when
`shear_dim == 1`. -/
noncomputable def fourierShearFilter (N0 N1 : ℕ) (δ0 δ1 z0 z1 shear : ℝ)
    (shearDim : Bool) : Fin N1 → Fin N0 → ℂ :=
  fun r c =>
    cond shearDim
      (Complex.exp (-Complex.I * ((shear : ℂ)) *
        ((gridCoord δ0 z0 c * fftFreq N1 δ1 r : ℝ) : ℂ)))
      (Complex.exp (-Complex.I * ((shear : ℂ)) *
        ((gridCoord δ1 z1 r * fftFreq N0 δ0 c : ℝ) : ℂ)))

/-- `FourierShear._operation` (fourier_operations.py lines 371-389): 1-D FFT
along the sheared axis only (`axis=-shear_dim-1`), multiply by the filter
(conjugated on the adjoint path, lines 380-383), inverse 1-D FFT. -/
noncomputable def fourierShearOperation {N1 N0 : ℕ} (δ0 δ1 z0 z1 shear : ℝ)
    (shearDim : Bool) (adjoint : Bool) (u : Fin N1 → Fin N0 → ℂ) :
    Fin N1 → Fin N0 → ℂ :=
  cond shearDim
    (idftAxis0 (fun r c =>
      (cond adjoint ((starRingEnd ℂ) (fourierShearFilter N0 N1 δ0 δ1 z0 z1 shear shearDim r c))
        (fourierShearFilter N0 N1 δ0 δ1 z0 z1 shear shearDim r c)) * dftAxis0 u r c))
    (idftAxis1 (fun r c =>
      (cond adjoint ((starRingEnd ℂ) (fourierShearFilter N0 N1 δ0 δ1 z0 z1 shear shearDim r c))
        (fourierShearFilter N0 N1 δ0 δ1 z0 z1 shear shearDim r c)) * dftAxis1 u r c))

lemma fourierShear_adjoint {N1 N0 : ℕ} (δ0 δ1 z0 z1 shear : ℝ) (dim : Bool)
    (u v : Fin N1 → Fin N0 → ℂ) :
    inner2 (fourierShearOperation δ0 δ1 z0 z1 shear dim false u) v
      = inner2 u (fourierShearOperation δ0 δ1 z0 z1 shear dim true v) := by
  cases dim
  · simp only [fourierShearOperation, cond_false, cond_true]
    exact sandwichAxis1 _ u v
  · simp only [fourierShearOperation, cond_false, cond_true]
    exact sandwichAxis0 _ u v

lemma fourierShearFilter_neg_mul {N1 N0 : ℕ} (δ0 δ1 z0 z1 a : ℝ) (dim : Bool)
    (r : Fin N1) (c : Fin N0) :
    fourierShearFilter N0 N1 δ0 δ1 z0 z1 (-a) dim r c *
      fourierShearFilter N0 N1 δ0 δ1 z0 z1 a dim r c = 1 := by
  cases dim <;>
    simp only [fourierShearFilter, cond_false, cond_true] <;>
    rw [← Complex.exp_add, Complex.ofReal_neg] <;>
    ring_nf <;>
    exact Complex.exp_zero

/-- A shear by `-a` exactly undoes a shear by `a` along the same axis. -/
lemma fourierShear_neg_inverse {N1 N0 : ℕ} (δ0 δ1 z0 z1 a : ℝ) (dim : Bool)
    (u : Fin N1 → Fin N0 → ℂ) :
    fourierShearOperation δ0 δ1 z0 z1 (-a) dim false
      (fourierShearOperation δ0 δ1 z0 z1 a dim false u) = u := by
  cases dim
  · simp only [fourierShearOperation, cond_false, cond_true]
    rw [dftAxis1_idftAxis1]
    simp only [← mul_assoc, fourierShearFilter_neg_mul, one_mul]
    exact idftAxis1_dftAxis1 u
  · simp only [fourierShearOperation, cond_false, cond_true]
    rw [dftAxis0_idftAxis0]
    simp only [← mul_assoc, fourierShearFilter_neg_mul, one_mul]
    exact idftAxis0_dftAxis0 u

/-- `FourierRotation._operation` (fourier_operations.py lines 458-463)
together with the `angle` setter (lines 421-426): the three-shear
decomposition with x-shear coefficient `tan(angle/2)` and y-shear coefficient
`-sin(angle)`; the source returns the tuple of all three intermediate shear
stages `(f1, f2, f3)`. -/
noncomputable def fourierRotationOperation {N1 N0 : ℕ} (δ0 δ1 z0 z1 θ : ℝ)
    (adjoint : Bool) (u : Fin N1 → Fin N0 → ℂ) :
    (Fin N1 → Fin N0 → ℂ) × (Fin N1 → Fin N0 → ℂ) × (Fin N1 → Fin N0 → ℂ) :=
  let f1 := fourierShearOperation δ0 δ1 z0 z1 (Real.tan (θ / 2)) false adjoint u
  let f2 := fourierShearOperation δ0 δ1 z0 z1 (-Real.sin θ) true adjoint f1
  let f3 := fourierShearOperation δ0 δ1 z0 z1 (Real.tan (θ / 2)) false adjoint f2
  (f1, f2, f3)

/-- The final stage of the three-shear rotation (the fully rotated field,
spec section 4.4). -/
noncomputable def fourierRotationFinal {N1 N0 : ℕ} (δ0 δ1 z0 z1 θ : ℝ)
    (adjoint : Bool) (u : Fin N1 → Fin N0 → ℂ) : Fin N1 → Fin N0 → ℂ :=
  (fourierRotationOperation δ0 δ1 z0 z1 θ adjoint u).2.2

lemma fourierRotationFinal_eq {N1 N0 : ℕ} (δ0 δ1 z0 z1 θ : ℝ) (adjoint : Bool)
    (u : Fin N1 → Fin N0 → ℂ) :
    fourierRotationFinal δ0 δ1 z0 z1 θ adjoint u
      = fourierShearOperation δ0 δ1 z0 z1 (Real.tan (θ / 2)) false adjoint
          (fourierShearOperation δ0 δ1 z0 z1 (-Real.sin θ) true adjoint
            (fourierShearOperation δ0 δ1 z0 z1 (Real.tan (θ / 2)) false adjoint u)) := rfl

lemma fourierRotation_final_adjoint {N1 N0 : ℕ} (δ0 δ1 z0 z1 θ : ℝ)
    (u v : Fin N1 → Fin N0 → ℂ) :
    inner2 (fourierRotationFinal δ0 δ1 z0 z1 θ false u) v
      = inner2 u (fourierRotationFinal δ0 δ1 z0 z1 θ true v) := by
  rw [fourierRotationFinal_eq, fourierRotationFinal_eq,
    fourierShear_adjoint, fourierShear_adjoint, fourierShear_adjoint]

lemma fourierRotation_roundtrip {N1 N0 : ℕ} (δ0 δ1 z0 z1 θ : ℝ)
    (u : Fin N1 → Fin N0 → ℂ) :
    fourierRotationFinal δ0 δ1 z0 z1 (-θ) false
      (fourierRotationFinal δ0 δ1 z0 z1 θ false u) = u := by
  rw [fourierRotationFinal_eq, fourierRotationFinal_eq]
  have ht : Real.tan (-θ / 2) = -Real.tan (θ / 2) := by
    rw [neg_div, Real.tan_neg]
  have hs : -Real.sin (-θ) = -(-Real.sin θ) := by
    rw [Real.sin_neg, neg_neg]
  rw [ht, hs, fourierShear_neg_inverse, fourierShear_neg_inverse,
    fourierShear_neg_inverse]

/-- The scratch-buffer descriptor cached as `FourierFilter.internal_array`:
its numpy shape tuple and a dtype tag. -/
structure NpArraySpec where
  shape : List ℕ
  dtype : ℕ
deriving DecidableEq

/-- The attributes of an incoming field read by
`FourierFilter._compute_functions`: tensor shape, grid dimensionality and
dtype tag; `tensor_order` is the length of the tensor shape. -/
structure FieldSpec where
  tensorShape : List ℕ
  gridNdim : ℕ
  dtype : ℕ
deriving DecidableEq

/-- numpy `np.all(a == b)` for two equal-length shape tuples: elementwise
comparison, vacuously true on the empty tuple (matching numpy). -/
def npAllEq (a b : List ℕ) : Bool :=
  (a.zip b).all (fun p => p.1 == p.2)

/-- The recompute condition of `FourierFilter._compute_functions`
(fourier_operations.py lines 56-59), transcribed literally, including the
final disjunct
`np.all(self.internal_array.shape[:field.tensor_order] == field.tensor_shape)`
exactly as written in the source. -/
def recomputeInternalArray (cache : Option NpArraySpec) (f : FieldSpec) : Bool :=
  match cache with
  | none => true
  | some arr =>
    (arr.shape.length != f.gridNdim + f.tensorShape.length) ||
    (arr.dtype != f.dtype) ||
    npAllEq (arr.shape.take f.tensorShape.length) f.tensorShape

/-- Lines 61-62 of fourier_operations.py: when the recompute condition
holds, the buffer is reallocated with the field's tensor shape prepended to
the internal grid shape and the field's dtype; otherwise the existing buffer
is kept as-is. -/
def nextInternalArray (internalShape : List ℕ) (cache : Option NpArraySpec)
    (f : FieldSpec) : NpArraySpec :=
  if recomputeInternalArray cache f then ⟨f.tensorShape ++ internalShape, f.dtype⟩
  else cache.getD ⟨[], 0⟩

/-- `np.fft.ifftshift` on a 1-D array of length `M`: cyclic roll to the left
by `M / 2`. -/
def ifftshift1 {M : ℕ} (x : Fin M → ℂ) : Fin M → ℂ :=
  fun k => x ⟨(k.val + M / 2) % M, Nat.mod_lt _ k.pos⟩

/-- The mutable state of a `FourierFilter` relevant to transfer-function
caching: the nominal `transfer_function` attribute (a plain attribute,
fourier_operations.py lines 41 and 51; the class defines no property setter
for it) and the cached FFT-ordered `_transfer_function` together with the
dtype tag it was cast to (lines 43 and 47-54).  The payload is the array
over the `M`-sample internal grid (the precomputed-Field form of the
nominal transfer function). -/
structure FourierFilterCacheState (M : ℕ) where
  transferFunction : Fin M → ℂ
  cachedTF : Option ((Fin M → ℂ) × ℕ)

/-- `FourierFilter.__init__` lines 41-44: store the nominal transfer
function; the `_transfer_function` cache starts out absent. -/
def mkFourierFilterCache {M : ℕ} (tf : Fin M → ℂ) : FourierFilterCacheState M :=
  ⟨tf, none⟩

/-- The transfer-function caching step of `_compute_functions` (lines
47-54): the FFT-ordered copy is recomputed from the nominal transfer
function exactly when the cache is absent or holds a different dtype than
the incoming field; otherwise the state is left untouched. -/
def computeTransferCache {M : ℕ} (st : FourierFilterCacheState M)
    (fieldDtype : ℕ) : FourierFilterCacheState M :=
  match st.cachedTF with
  | some (_, dt) =>
    if dt = fieldDtype then st
    else { st with cachedTF := some (ifftshift1 st.transferFunction, fieldDtype) }
  | none => { st with cachedTF := some (ifftshift1 st.transferFunction, fieldDtype) }

/-- Reassigning `filter.transfer_function = tf`: a plain attribute
assignment (no property setter exists on `FourierFilter`), which leaves the
cached `_transfer_function` untouched. -/
def setTransferFunctionAttr {M : ℕ} (st : FourierFilterCacheState M)
    (tf : Fin M → ℂ) : FourierFilterCacheState M :=
  { st with transferFunction := tf }

/-- Grid data read by `AngularSpectrumPropagator.make_instance`
(angular_spectrum.py lines 49-52): per-axis spacings and sample counts, in
exact rational arithmetic. -/
structure GridSpec where
  delta : List ℚ
  dims : List ℕ
deriving DecidableEq

/-- `L_max = np.max(input_grid.dims * input_grid.delta)`
(angular_spectrum.py line 50). -/
def lmaxExtent (g : GridSpec) : ℚ :=
  ((g.dims.zip g.delta).map (fun p => (p.1 : ℚ) * p.2)).foldr max 0

/-- The two transfer-function constructions of `make_instance`. -/
inductive TransferKind where
  | impulseResponse : TransferKind
  | directSpectrum : TransferKind
deriving DecidableEq

/-- The branch selection of `make_instance` (angular_spectrum.py line 52):
`np.any(input_grid.delta < wavelength * self.distance / L_max)` selects the
oversampled impulse-response construction, otherwise the direct
frequency-space transfer function is used. -/
def selectTransferKind (g : GridSpec) (wavelength distance : ℚ) : TransferKind :=
  if g.delta.any (fun d => decide (d < wavelength * distance / lmaxExtent g)) then
    TransferKind.impulseResponse
  else
    TransferKind.directSpectrum

/-- The spec's wording of the criterion, kept for comparison with the code:
the near-field construction is selected exactly when the grid spacing is
"too coarse relative to the criterion wavelength·distance/max(grid
extent)", i.e. some spacing exceeds that quotient. -/
def specCoarseNearField (g : GridSpec) (wavelength distance : ℚ) : Prop :=
  ∃ d ∈ g.delta, wavelength * distance / lmaxExtent g < d

/-- The near-field spatial impulse response of `make_instance`
(angular_spectrum.py lines 57-62): `cosθ/(2π) · exp(i k r) · (1/r² - i k/r)`
with `r² = x² + y² + distance²` and `cos θ = distance / r`. -/
noncomputable def angularSpectrumImpulseResponse (k distance x y : ℝ) : ℂ :=
  ((distance / Real.sqrt (x ^ 2 + y ^ 2 + distance ^ 2) / (2 * Real.pi) : ℝ) : ℂ) *
    Complex.exp (Complex.I * (k : ℂ) * ((Real.sqrt (x ^ 2 + y ^ 2 + distance ^ 2) : ℝ) : ℂ)) *
    (((1 / (x ^ 2 + y ^ 2 + distance ^ 2) : ℝ) : ℂ) -
      Complex.I * ((k / Real.sqrt (x ^ 2 + y ^ 2 + distance ^ 2) : ℝ) : ℂ))

/-- The far-field transfer function of `make_instance` (angular_spectrum.py
lines 68-72): `exp(i k_z distance)` with `k_z = sqrt(k² - k_perp² + 0j)`
taken by the complex square root, so evanescent frequencies decay instead of
producing NaN. -/
noncomputable def angularSpectrumDirectTransfer (k distance kperp : ℝ) : ℂ :=
  Complex.exp (Complex.I *
    (((k : ℂ) ^ 2 - (kperp : ℂ) ^ 2) ^ ((1 : ℂ) / 2)) * (distance : ℂ))

/-- `np.flatnonzero(shift)` (fourier_operations.py line 196): indices of the
non-zero entries of the shift vector, in increasing order. -/
def flatnonzero (shift : List ℚ) : List ℕ :=
  (List.range shift.length).filter (fun j => shift.getD j 0 != 0)

/-- `tuple(np.flatnonzero(shift) - 1)` (fourier_operations.py line 196): the
axis indices the source passes to `fftn`/`ifftn`. -/
def ftAxesCode (shift : List ℚ) : List ℤ :=
  (flatnonzero shift).map (fun j => (j : ℤ) - 1)

/-- numpy axis resolution on an `n`-dimensional array: a negative axis
counts from the end. -/
def resolveAxis (n : ℕ) (a : ℤ) : ℤ :=
  if a < 0 then a + n else a

/-- The numpy axes the same setter treats as active when broadcasting the
phase filter (fourier_operations.py line 203): `mask[::-1]` marks numpy axis
`i` of a scalar shaped field as active iff grid axis `ndim - 1 - i` has
non-zero shift. -/
def broadcastActiveAxes (shift : List ℚ) : List ℕ :=
  (List.range shift.length).filter
    (fun i => shift.getD (shift.length - 1 - i) 0 != 0)

/-- The grid attributes checked by the `FourierShear` and `FourierRotation`
constructors. -/
structure GridModel where
  ndim : ℕ
  isRegular : Bool
deriving DecidableEq

/-- The constructed `FourierShear` configuration. -/
structure FourierShearModel where
  inputGrid : GridModel
  shear : ℝ
  shearDim : ℕ

/-- The constructed `FourierRotation` configuration: the two internal shear
operators and the rotation angle. -/
structure FourierRotationModel where
  inputGrid : GridModel
  shearX : FourierShearModel
  shearY : FourierShearModel
  angle : ℝ

/-- `FourierShear.__init__` (fourier_operations.py lines 300-306): raise
`ValueError` unless the input grid is regular and exactly 2-D, then store
the configuration (the shear setter derives the phase filter, modelled
functionally by `fourierShearFilter`). -/
def mkFourierShear (g : GridModel) (shear : ℝ) (shearDim : ℕ) :
    Except String FourierShearModel :=
  if !g.isRegular || g.ndim ≠ 2 then
    Except.error "The input grid should be 2D and regularly spaced."
  else
    Except.ok ⟨g, shear, shearDim⟩

/-- `FourierRotation.__init__` (fourier_operations.py lines 406-415): raise
`ValueError` unless the input grid is regular and exactly 2-D, then build
the two internal `FourierShear` operators and set the angle-derived shear
coefficients `tan(angle/2)` and `-sin(angle)` (lines 421-426). -/
noncomputable def mkFourierRotation (g : GridModel) (angle : ℝ) :
    Except String FourierRotationModel :=
  if !g.isRegular || g.ndim ≠ 2 then
    Except.error "The input grid should be 2D and regularly spaced."
  else do
    let sx ← mkFourierShear g 0 0
    let sy ← mkFourierShear g 0 1
    Except.ok ⟨g, { sx with shear := Real.tan (angle / 2) },
      { sy with shear := -Real.sin angle }, angle⟩

/-- Whether an `Except` value holds a successful result. -/
def exceptSucceeds {ε α : Type} : Except ε α → Bool
  | Except.ok _ => true
  | Except.error _ => false

/-- A wavefront as consumed by `AngularSpectrumPropagator.forward` and
`backward` (spec section 6): an electric field, a wavelength and an optional
input Stokes vector. -/
structure WavefrontModel (N : ℕ) where
  electricField : Fin N → ℂ
  wavelength : ℝ
  inputStokesVector : Option (Fin 4 → ℝ)

/-- `AngularSpectrumPropagator.forward` (angular_spectrum.py lines 115-131):
apply the cached instance's fourier filter forward to the electric field and
wrap the result in a wavefront carrying the input's wavelength and input
Stokes vector. -/
noncomputable def angularSpectrumForward {N M : ℕ} (off : ℕ) (tf : Fin M → ℂ)
    (wf : WavefrontModel N) : WavefrontModel N :=
  { electricField := fourierFilterOperation off tf false wf.electricField
    wavelength := wf.wavelength
    inputStokesVector := wf.inputStokesVector }

/-- `AngularSpectrumPropagator.backward` (angular_spectrum.py lines
133-149): apply the cached instance's fourier filter backward to the
electric field and wrap the result in a wavefront carrying the input's
wavelength and input Stokes vector. -/
noncomputable def angularSpectrumBackward {N M : ℕ} (off : ℕ) (tf : Fin M → ℂ)
    (wf : WavefrontModel N) : WavefrontModel N :=
  { electricField := fourierFilterOperation off tf true wf.electricField
    wavelength := wf.wavelength
    inputStokesVector := wf.inputStokesVector }

/-- C1: for every FourierFilter (with scalar or matrix-valued transfer
function), FourierShift, FourierShear and FourierRotation operator `T` and
all fields `u, v` of matching shape on `T`'s input grid,
`⟨T.forward u, v⟩ = ⟨u, T.backward v⟩`: `backward` is the conjugate-transpose
adjoint of `forward`, with the scalar transfer function conjugated and the
matrix-valued transfer function conjugate-transposed on the adjoint path.
For FourierRotation the rotated field is the final shear stage of the
returned triple (spec section 4.4). -/
theorem C1_backward_is_adjoint_of_forward :
    (∀ (N M off : ℕ) (tf : Fin M → ℂ) (u v : Fin N → ℂ),
      inner1 (fourierFilterOperation off tf false u) v
        = inner1 u (fourierFilterOperation off tf true v))
  ∧ (∀ (d N M off : ℕ) (tf : Fin M → Fin d → Fin d → ℂ) (u v : Fin d → Fin N → ℂ),
      innerVec (fourierFilterOperationMatrix off tf false u) v
        = innerVec u (fourierFilterOperationMatrix off tf true v))
  ∧ (∀ (N1 N0 : ℕ) (δ0 δ1 s0 s1 : ℝ) (u v : Fin N1 → Fin N0 → ℂ),
      inner2 (fourierShiftOperation δ0 δ1 s0 s1 false u) v
        = inner2 u (fourierShiftOperation δ0 δ1 s0 s1 true v))
  ∧ (∀ (N1 N0 : ℕ) (δ0 δ1 z0 z1 shear : ℝ) (dim : Bool) (u v : Fin N1 → Fin N0 → ℂ),
      inner2 (fourierShearOperation δ0 δ1 z0 z1 shear dim false u) v
        = inner2 u (fourierShearOperation δ0 δ1 z0 z1 shear dim true v))
  ∧ (∀ (N1 N0 : ℕ) (δ0 δ1 z0 z1 θ : ℝ) (u v : Fin N1 → Fin N0 → ℂ),
      inner2 (fourierRotationFinal δ0 δ1 z0 z1 θ false u) v
        = inner2 u (fourierRotationFinal δ0 δ1 z0 z1 θ true v)) :=
  ⟨fun _ _ off tf u v => fourierFilter_adjoint off tf u v,
   fun _ _ _ off tf u v => fourierFilterMatrix_adjoint off tf u v,
   fun _ _ δ0 δ1 s0 s1 u v => fourierShift_adjoint δ0 δ1 s0 s1 u v,
   fun _ _ δ0 δ1 z0 z1 a dim u v => fourierShear_adjoint δ0 δ1 z0 z1 a dim u v,
   fun _ _ δ0 δ1 z0 z1 θ u v => fourierRotation_final_adjoint δ0 δ1 z0 z1 θ u v⟩

/-- C2: `FourierRotation._operation` returns the tuple of all three
intermediate shear stages rather than a single rotated field (so the output
of `forward` cannot be fed to another `forward` call as the claim requires),
and for the final stage — the fully rotated field — rotating by `θ` and then
by `-θ` returns the original field exactly, for every angle and every
field. -/
theorem C2_rotation_triple_output_and_final_stage_roundtrip :
    (∀ (N1 N0 : ℕ) (δ0 δ1 z0 z1 θ : ℝ) (adjoint : Bool) (u : Fin N1 → Fin N0 → ℂ),
      fourierRotationOperation δ0 δ1 z0 z1 θ adjoint u
        = (fourierShearOperation δ0 δ1 z0 z1 (Real.tan (θ / 2)) false adjoint u,
           fourierShearOperation δ0 δ1 z0 z1 (-Real.sin θ) true adjoint
             (fourierShearOperation δ0 δ1 z0 z1 (Real.tan (θ / 2)) false adjoint u),
           fourierRotationFinal δ0 δ1 z0 z1 θ adjoint u))
  ∧ (∀ (N1 N0 : ℕ) (δ0 δ1 z0 z1 θ : ℝ) (u : Fin N1 → Fin N0 → ℂ),
      fourierRotationFinal δ0 δ1 z0 z1 (-θ) false
        (fourierRotationFinal δ0 δ1 z0 z1 θ false u) = u) :=
  ⟨fun _ _ _ _ _ _ _ _ _ => rfl,
   fun _ _ δ0 δ1 z0 z1 θ u => fourierRotation_roundtrip δ0 δ1 z0 z1 θ u⟩

/-- C3: the recompute condition for the scratch buffer in
`FourierFilter._compute_functions` has its final test inverted: a cached
buffer whose leading tensor axes exactly match the field's tensor shape (and
whose ndim and dtype match) triggers a reallocation, while a buffer whose
leading tensor axes mismatch the field's tensor shape (same tensor order and
dtype) is kept, so a stale wrongly-shaped buffer is reused. -/
theorem C3_scratch_buffer_recompute_polarity :
    recomputeInternalArray (some ⟨[2, 8], 0⟩) ⟨[2], 1, 0⟩ = true
  ∧ recomputeInternalArray (some ⟨[2, 8], 0⟩) ⟨[3], 1, 0⟩ = false
  ∧ nextInternalArray [8] (some ⟨[2, 8], 0⟩) ⟨[3], 1, 0⟩ = ⟨[2, 8], 0⟩
  ∧ recomputeInternalArray none ⟨[2], 1, 0⟩ = true := by
  exact ⟨rfl, rfl, rfl, rfl⟩

/-- C4 counterexample: `transfer_function` is a plain attribute of
`FourierFilter`, so reassigning it does not invalidate the cached
FFT-ordered `_transfer_function`: after caching the constant-1 transfer
function and reassigning the constant-2 one, a call with the same dtype
still uses the cached value 1, not 2. -/
theorem C4_reassigned_transfer_function_not_used :
    ((computeTransferCache (setTransferFunctionAttr
        (computeTransferCache (mkFourierFilterCache (M := 1) (fun _ => 1)) 0)
        (fun _ => 2)) 0).cachedTF.map (fun p => p.1 0)) = some 1
  ∧ ifftshift1 (M := 1) (fun _ => 2) 0 = 2
  ∧ (1 : ℂ) ≠ 2 := by
  refine ⟨rfl, rfl, ?_⟩
  norm_num

/-- C4 amended: reassigning `transfer_function` does not invalidate the
cached FFT-ordered transfer function; the cache is recomputed only when it
is absent or when the incoming field's dtype differs from the cached dtype,
so a reassigned nominal transfer function takes effect only after such a
trigger. -/
theorem C4_cache_invalidated_only_by_dtype_or_absence :
    ∀ (M : ℕ) (st : FourierFilterCacheState M) (tfNew c : Fin M → ℂ) (d d2 : ℕ),
      st.cachedTF = some (c, d) → d2 ≠ d →
      (computeTransferCache (setTransferFunctionAttr st tfNew) d).cachedTF = some (c, d)
    ∧ (computeTransferCache (setTransferFunctionAttr st tfNew) d2).cachedTF
        = some (ifftshift1 tfNew, d2) := by
  intro M st tfNew c d d2 hc hne
  obtain ⟨tf0, c0⟩ := st
  replace hc : c0 = some (c, d) := hc
  subst hc
  constructor
  · simp [setTransferFunctionAttr, computeTransferCache]
  · simp only [setTransferFunctionAttr, computeTransferCache]
    rw [if_neg (Ne.symm hne)]

/-- Witness for the C4 amended theorem at a concrete state. -/
theorem C4_cache_invalidated_only_by_dtype_or_absence_witness :
    (FourierFilterCacheState.mk (M := 1) (fun _ => 1)
        (some (fun _ => 1, 0))).cachedTF = some ((fun _ => (1 : ℂ)), 0)
  ∧ (1 : ℕ) ≠ 0
  ∧ ((computeTransferCache (setTransferFunctionAttr
        (FourierFilterCacheState.mk (M := 1) (fun _ => 1) (some (fun _ => 1, 0)))
        (fun _ => 2)) 0).cachedTF = some ((fun _ => (1 : ℂ)), 0)
      ∧ (computeTransferCache (setTransferFunctionAttr
        (FourierFilterCacheState.mk (M := 1) (fun _ => 1) (some (fun _ => 1, 0)))
        (fun _ => 2)) 1).cachedTF = some (ifftshift1 (fun _ => 2), 1)) :=
  ⟨rfl, by decide,
    C4_cache_invalidated_only_by_dtype_or_absence 1
      (FourierFilterCacheState.mk (fun _ => 1) (some (fun _ => 1, 0)))
      (fun _ => 2) (fun _ => 1) 0 1 rfl (by decide)⟩

/-- C5 counterexample: on a grid with spacing 1 and extent 4, wavelength 1
and distance 10, the code selects the near-field impulse-response
construction although the spacing (1) is not coarser than the criterion
`wavelength·distance/max extent = 5/2`: the code's test is
`delta < criterion` (spacing finer than the criterion), not coarser. -/
theorem C5_near_field_selected_with_fine_spacing :
    selectTransferKind ⟨[1, 1], [4, 4]⟩ 1 10 = TransferKind.impulseResponse
  ∧ ¬ specCoarseNearField ⟨[1, 1], [4, 4]⟩ 1 10 := by
  have hL : lmaxExtent ⟨[1, 1], [4, 4]⟩ = 4 := by norm_num [lmaxExtent]
  constructor
  · unfold selectTransferKind
    have hc : ((([1, 1] : List ℚ).any fun d =>
        decide (d < 1 * 10 / lmaxExtent ⟨[1, 1], [4, 4]⟩))) = true := by
      rw [hL]
      norm_num
    rw [if_pos hc]
  · intro h
    obtain ⟨d, hd, hlt⟩ := h
    rw [hL] at hlt
    simp only [List.mem_cons, List.not_mem_nil, or_false] at hd
    rcases hd with h1 | h1 <;> rw [h1] at hlt <;> norm_num at hlt

/-- C5 amended: `make_instance` selects the near-field (oversampled
impulse-response, Fourier-transformed) construction exactly when some
component of the grid spacing is strictly smaller than
`wavelength·distance/max(grid extent)` — i.e. when the spacing is fine
relative to the criterion (equivalently the distance large) — and the direct
frequency-space transfer function `exp(i k_z distance)` otherwise. -/
theorem C5_near_field_selection_characterization :
    ∀ (g : GridSpec) (wavelength distance : ℚ),
      selectTransferKind g wavelength distance = TransferKind.impulseResponse
        ↔ ∃ d ∈ g.delta, d < wavelength * distance / lmaxExtent g := by
  intro g w distance
  unfold selectTransferKind
  constructor
  · intro hsel
    by_cases h : (g.delta.any fun d => decide (d < w * distance / lmaxExtent g)) = true
    · rw [List.any_eq_true] at h
      obtain ⟨d, hd, hp⟩ := h
      exact ⟨d, hd, of_decide_eq_true hp⟩
    · rw [if_neg h] at hsel
      exact TransferKind.noConfusion hsel
  · intro ⟨d, hd, hlt⟩
    have h : (g.delta.any fun d => decide (d < w * distance / lmaxExtent g)) = true :=
      List.any_eq_true.mpr ⟨d, hd, decide_eq_true hlt⟩
    rw [if_pos h]

/-- C6: a FourierShift whose shift vector is all zero returns the input
field unchanged (the source takes the early no-op exit, lines 198-201 and
247-248, performing no Fourier transform; the `astype('complex')` cast is
the identity on the complex-valued fields of the embedding), for forward and
backward alike. -/
theorem C6_zero_shift_is_identity :
    ∀ (N1 N0 : ℕ) (δ0 δ1 : ℝ) (adjoint : Bool) (u : Fin N1 → Fin N0 → ℂ),
      fourierShiftOperation δ0 δ1 0 0 adjoint u = u := by
  intro N1 N0 δ0 δ1 adjoint u
  unfold fourierShiftOperation
  rw [if_pos ⟨rfl, rfl⟩]

/-- C7: the ft-axes bookkeeping of `FourierShift.shift` contradicts its own
filter-broadcast bookkeeping beyond scalar 2-D fields.  For a 3-D grid with
shift `(0, 0, 1)` the code transforms numpy axis `1` (computed as
`flatnonzero(shift) - 1`), while the broadcast mask `mask[::-1]` of the same
setter marks numpy axis `0` as the active one; numpy axis `1` corresponds to
grid axis `3 - 1 - 1 = 1`, whose shift component is zero — a zero-shift axis
is Fourier transformed. -/
theorem C7_transformed_axes_disagree_with_active_axes :
    (ftAxesCode [0, 0, 1]).map (resolveAxis 3) = [1]
  ∧ broadcastActiveAxes [0, 0, 1] = [0]
  ∧ ([(0 : ℚ), 0, 1].getD 1 0 = 0) := by
  decide

/-- C8: constructing a FourierShear or a FourierRotation succeeds exactly
when the input grid is regular and exactly 2-D; otherwise a `ValueError` is
raised at construction time, before any forward or backward call. -/
theorem C8_shear_rotation_constructor_validation :
    ∀ (g : GridModel) (shear angle : ℝ) (dim : ℕ),
      (exceptSucceeds (mkFourierShear g shear dim) = true
        ↔ (g.isRegular = true ∧ g.ndim = 2))
    ∧ (exceptSucceeds (mkFourierRotation g angle) = true
        ↔ (g.isRegular = true ∧ g.ndim = 2)) := by
  intro g shear angle dim
  constructor
  · unfold mkFourierShear
    by_cases hr : g.isRegular <;> by_cases hn : g.ndim = 2 <;>
      simp [hr, hn, exceptSucceeds]
  · unfold mkFourierRotation mkFourierShear
    by_cases hr : g.isRegular <;> by_cases hn : g.ndim = 2 <;>
      simp [hr, hn, exceptSucceeds, Bind.bind, Except.bind]

/-- C9: `AngularSpectrumPropagator.forward` and `backward` return a
wavefront carrying exactly the input wavefront's wavelength and input Stokes
vector; only the electric field is filtered. -/
theorem C9_propagator_preserves_wavelength_and_stokes :
    ∀ (N M off : ℕ) (tf : Fin M → ℂ) (wf : WavefrontModel N),
      ((angularSpectrumForward off tf wf).wavelength = wf.wavelength
        ∧ (angularSpectrumForward off tf wf).inputStokesVector = wf.inputStokesVector)
    ∧ ((angularSpectrumBackward off tf wf).wavelength = wf.wavelength
        ∧ (angularSpectrumBackward off tf wf).inputStokesVector = wf.inputStokesVector) :=
  fun _ _ _ _ _ => ⟨⟨rfl, rfl⟩, ⟨rfl, rfl⟩⟩

lemma foldr_max_nonneg (l : List ℚ) : 0 ≤ l.foldr max 0 := by
  induction l with
  | nil => simp
  | cons a t ih =>
    simp only [List.foldr_cons]
    exact le_trans ih (le_max_right a _)

lemma lmaxExtent_nonneg (g : GridSpec) : 0 ≤ lmaxExtent g :=
  foldr_max_nonneg _

/-- C10: for a propagator with negative distance (backward propagation) the
branch criterion `np.any(delta < wavelength · distance / L_max)` can never
hold on a physical grid (positive spacings, positive wavelength), so the
near-field impulse-response construction is never selected and the direct
frequency-space transfer function is always used. -/
theorem C10_negative_distance_selects_direct_spectrum :
    ∀ (g : GridSpec) (wavelength distance : ℚ),
      (∀ d ∈ g.delta, 0 < d) → 0 < wavelength → distance < 0 →
      selectTransferKind g wavelength distance = TransferKind.directSpectrum := by
  intro g w distance hδ hw hd
  unfold selectTransferKind
  rw [if_neg]
  intro habs
  rw [List.any_eq_true] at habs
  obtain ⟨d, hdmem, hlt⟩ := habs
  have hlt2 : d < w * distance / lmaxExtent g := of_decide_eq_true hlt
  have hd0 : 0 < d := hδ d hdmem
  have hnum : w * distance < 0 := mul_neg_of_pos_of_neg hw hd
  have hquot : w * distance / lmaxExtent g ≤ 0 := by
    rcases eq_or_lt_of_le (lmaxExtent_nonneg g) with hL0 | hLpos
    · rw [← hL0, div_zero]
    · exact le_of_lt (div_neg_of_neg_of_pos hnum hLpos)
  linarith

/-- Witness for C10 at a concrete grid. -/
theorem C10_negative_distance_selects_direct_spectrum_witness :
    (∀ d ∈ ([1] : List ℚ), 0 < d) ∧ (0 : ℚ) < 1 ∧ (-1 : ℚ) < 0
  ∧ selectTransferKind ⟨[1], [2]⟩ 1 (-1) = TransferKind.directSpectrum :=
  ⟨by decide, by decide, by decide,
    C10_negative_distance_selects_direct_spectrum ⟨[1], [2]⟩ 1 (-1)
      (by decide) (by decide) (by decide)⟩

end HcipyFourier
